import Mathlib

/-!
Verification of the htmljs-parser core against its specification.

The definitions below are a shallow embedding of the repository's source:

* `operatorMatch` and its pieces embed `buildOperatorPattern` and the sticky
  `exec` call from `src/states/EXPRESSION.ts` (the two precompiled operator
  continuation patterns, one per surface mode);
* `exprChar` / `exprEol` / `exprEof` embed the `char`, `eol` and `eof` hooks of
  the EXPRESSION state;
* `attrChar` embeds the `char` hook of the ATTRIBUTE state (the current,
  event-based version of the file);
* `conciseLineStart` embeds the non-whitespace branch of the
  CONCISE_HTML_CONTENT `char` hook;
* `notifyStep` / `notifyRun` embed the notifier module (`createNotifiers`).

Characters are modelled as Lean `Char`, source buffers as `List Char`, byte
offsets as `Nat` (with `Int` where the source can produce `-1`).
-/

namespace Htmljs

/-- Modelled from the spec: the character classifier's whitespace predicate
(§2 "Character classifier"; the classifier itself lives outside the staged
files). Restricted to ASCII whitespace per the spec's §9 note. The same set
serves as the regex class `\s` of the operator patterns. -/
def isWhitespace (c : Char) : Bool :=
  c = ' ' || c = '\t' || c = '\n' || c = '\r' || c = Char.ofNat 11 || c = Char.ofNat 12

/-- A JavaScript regex word character (`\w` / the `\b` boundary class),
restricted to ASCII per the spec's §9 note. -/
def isWordChar (c : Char) : Bool :=
  ('a' ≤ c && c ≤ 'z') || ('A' ≤ c && c ≤ 'Z') || ('0' ≤ c && c ≤ '9') || c = '_'

/-- The backtick character (code 96). -/
def backtickChar : Char := Char.ofNat 96

/-- The single quote character (code 39). -/
def singleQuoteChar : Char := Char.ofNat 39

/-- Length of the maximal run of `\s` characters at the head of the list. -/
def wsRun : List Char → Nat
  | [] => 0
  | c :: rest => if isWhitespace c then wsRun rest + 1 else 0

/-- The lookahead `(?=\s+[^=/,;:>])` that follows the word-operator
alternative of `buildOperatorPattern`: at least one whitespace character and
then a character outside the terminator-like set. -/
def wordOpLookahead (l : List Char) : Bool :=
  let w := wsRun l
  decide (0 < w) &&
    match l.drop w with
    | d :: _ => !(d = '=' || d = '/' || d = ',' || d = ';' || d = ':' || d = '>')
    | [] => false

/-- One alternative of the parenthesised operator set in the lookahead pattern
of `buildOperatorPattern` (EXPRESSION.ts lines 226-247), matched at the head
of `l`; `prev` is the character just before `l` (for the `\b` of
`\bin(?:stanceof)`). Returns the number of characters the alternative
consumes. The alternatives, in source order:
`[*%<&^|?:]`, `=[=>]`, `/(?:\b|\s)`, `\.(?=\s)`,
`\bin(?:stanceof)(?=\s+[^=/,;:>])` (note: the source has no `?` after
`(?:stanceof)`, so only the full word `instanceof` can match),
`\+`, `-[^-]` (concise) / `-` (html), `>` (concise) / `>[>=]` (html). -/
def operatorAlt (isConcise : Bool) (prev : Option Char) (l : List Char) : Option Nat :=
  match l with
  | [] => none
  | c :: rest =>
    if c = '*' || c = '%' || c = '<' || c = '&' || c = '^' || c = '|' || c = '?' || c = ':' then
      some 1
    else if c = '=' then
      match rest with
      | d :: _ => if d = '=' || d = '>' then some 2 else none
      | [] => none
    else if c = '/' then
      match rest with
      | d :: _ =>
        if isWordChar d then some 1
        else if isWhitespace d then some 2
        else none
      | [] => none
    else if c = '.' then
      match rest with
      | d :: _ => if isWhitespace d then some 1 else none
      | [] => none
    else if c = 'i' then
      if (match prev with | some p => !isWordChar p | none => true)
          && rest.take 9 = "nstanceof".data
          && wordOpLookahead (rest.drop 9) then
        some 10
      else none
    else if c = '+' then some 1
    else if c = '-' then
      if isConcise then
        match rest with
        | d :: _ => if d = '-' then none else some 2
        | [] => none
      else some 1
    else if c = '>' then
      if isConcise then some 1
      else
        match rest with
        | d :: _ => if d = '>' || d = '=' then some 2 else none
        | [] => none
    else none

/-- The first top-level alternative of the operator pattern:
`\s*(?:ALT)\s*`. Every operator alternative starts with a non-whitespace
character, so the greedy `\s*` with backtracking is equivalent to trying the
alternation exactly after the maximal whitespace run. -/
def lookAheadOperator (isConcise : Bool) (s : List Char) (pos : Nat) : Option Nat :=
  let w := wsRun (s.drop pos)
  let prev := if pos + w = 0 then none else s.get? (pos + w - 1)
  match operatorAlt isConcise prev (s.drop (pos + w)) with
  | some k => some (w + k + wsRun (s.drop (pos + w + k)))
  | none => none

/-- The second top-level alternative: `\s+(?=[{(])` in concise mode and
`\s+(?=[[{(])` in html mode (the source writes the class as
`[${isConcise ? "" : "["}{(]`, so `[` belongs to the html pattern only). -/
def lookAheadBracket (isConcise : Bool) (s : List Char) (pos : Nat) : Option Nat :=
  let w := wsRun (s.drop pos)
  if w = 0 then none
  else
    match s.get? (pos + w) with
    | some c =>
      if c = '{' || c = '(' || (!isConcise && c = '[') then some w else none
    | none => none

/-- The third top-level alternative, the zero-width lookbehind
`(?<=UNARY|BINARY|[^-]-|[^+]\+)` evaluated at `pos` (EXPRESSION.ts line 249):
the characters before `pos` must end in one of the unary words
(`! async await class function new typeof void`), one of the binary
operators, or a `-`/`+` that is not doubled. -/
def lookBehindOperator (s : List Char) (pos : Nat) : Bool :=
  let before := s.take pos
  let sfx : List Char → Bool := fun lit => lit.isSuffixOf before
  let lastC := before.getLast?
  let last2 := before.dropLast.getLast?
  sfx "!".data || sfx "async".data || sfx "await".data || sfx "class".data ||
  sfx "function".data || sfx "new".data || sfx "typeof".data || sfx "void".data ||
  (match lastC with
   | some c =>
     c = '*' || c = '%' || c = '<' || c = '&' || c = '^' || c = '|' || c = '?' || c = ':'
   | none => false) ||
  sfx "==".data || sfx "=>".data ||
  -- `/(?:\b|\s)`: either "/" directly before `pos` with a word boundary at
  -- `pos` (the character at `pos` is a word character), or "/" then one
  -- whitespace character ending at `pos`.
  (lastC = some '/' &&
    (match s.get? pos with | some c => isWordChar c | none => false)) ||
  (last2 = some '/' && (match lastC with | some c => isWhitespace c | none => false)) ||
  -- `\.(?=\s)` as a lookbehind: "." before `pos`, whitespace at `pos`.
  (lastC = some '.' &&
    (match s.get? pos with | some c => isWhitespace c | none => false)) ||
  -- `\bin(?:stanceof)(?=\s+[^=/,;:>])` as a lookbehind.
  ("instanceof".data.isSuffixOf before &&
    (match s.get? (pos - 11) with
     | some p => decide (pos < 11) || !isWordChar p
     | none => true) &&
    wordOpLookahead (s.drop pos)) ||
  (match last2, lastC with
   | some a, some b => b = '-' && !(a = '-')
   | _, _ => false) ||
  (match last2, lastC with
   | some a, some b => b = '+' && !(a = '+')
   | _, _ => false)

/-- `exec` of the sticky operator continuation pattern at offset `pos`
(`pattern.lastIndex = this.pos; pattern.exec(this.data)` in EXPRESSION.ts
lines 46-50): the length of the match, `none` when the pattern fails. The
three top-level alternatives are tried in source order. -/
def operatorMatch (isConcise : Bool) (s : List Char) (pos : Nat) : Option Nat :=
  match lookAheadOperator isConcise s pos with
  | some n => some n
  | none =>
    match lookAheadBracket isConcise s pos with
    | some n => some n
    | none => if lookBehindOperator s pos then some 0 else none

/-! ## The EXPRESSION state -/

/-- The error codes the embedded states can emit (spec §6). -/
inductive ErrCode where
  | MALFORMED_OPEN_TAG
  | INVALID_EXPRESSION
  | ILLEGAL_ATTRIBUTE_ARGUMENT
  | ILLEGAL_ATTRIBUTE_VALUE
  | BAD_INDENTATION
  | INVALID_BODY
  | ILLEGAL_LINE_START
  | INVALID_CHARACTER
  | MALFORMED_PLACEHOLDER
  deriving DecidableEq, Repr

/-- `ExpressionMeta.terminator`: a single char code, the unset default `-1`
(which compares equal to no character), or a list whose elements are single
codes or multi-byte sequences. Sequences are modelled as `List Char`; a
one-element list behaves exactly like a single code in
`checkForTerminators`. -/
inductive Terminator where
  | unset
  | single (c : Char)
  | multi (ts : List (List Char))
  deriving DecidableEq, Repr

/-- Do the characters of `rest` appear in `s` at positions `pos`, `pos+1`, …?
(`parser.data.charCodeAt(parser.pos + i) !== terminator[i]` — an
out-of-range read compares unequal.) -/
def matchesAhead (s : List Char) (pos : Nat) : List Char → Bool
  | [] => true
  | c :: rest => s.get? pos = some c && matchesAhead s (pos + 1) rest

/-- `checkForTerminators` (EXPRESSION.ts lines 253-272): some element of the
list matches at the current position — its first character equals `code` and
its remaining characters match the following data. -/
def checkForTerminators (s : List Char) (pos : Nat) (code : Char)
    (ts : List (List Char)) : Bool :=
  ts.any fun t =>
    match t with
    | [] => false
    | c :: rest => c = code && matchesAhead s (pos + 1) rest

/-- Does the expression's terminator match `code` at `pos`
(EXPRESSION.ts lines 70-74)? -/
def terminatorMatches (s : List Char) (pos : Nat) (code : Char) : Terminator → Bool
  | .unset => false
  | .single c => c = code
  | .multi ts => checkForTerminators s pos code ts

/-- The state-specific fields of an EXPRESSION frame (`ExpressionMeta`):
`groupStack` holds the expected closing character of every open bracket. -/
structure ExprMeta where
  groupStack : List Char
  terminator : Terminator
  skipOperators : Bool
  terminatedByEOL : Bool
  terminatedByWhitespace : Bool
  deriving DecidableEq, Repr

/-- `canCharCodeBeFollowedByDivision` (EXPRESSION.ts lines 274-286); `none`
(no previous non-whitespace character) is not in the set. -/
def canBeFollowedByDivision : Option Char → Bool
  | some c =>
    ('0' ≤ c && c ≤ '9') || ('A' ≤ c && c ≤ 'Z') || ('a' ≤ c && c ≤ 'z') ||
    c = '%' || c = ')' || c = '.' || c = '<' || c = ']' || c = '}'
  | none => false

/-- Modelled from the spec: `getPreviousNonWhitespaceCharCode`, a parser-core
primitive not among the staged files — "the previous non-whitespace byte"
(§4.2): scan backwards from `pos - 1` past whitespace. -/
def prevNonWhitespace (s : List Char) : Nat → Option Char
  | 0 => none
  | i + 1 =>
    match s.get? i with
    | some c => if isWhitespace c then prevNonWhitespace s i else some c
    | none => prevNonWhitespace s i

/-- What one invocation of `EXPRESSION.char` does, beyond updating the group
stack: exit, continue past an operator (lookahead match of length `n + 1`,
after which the source does `pos += n`), consume the whitespace run after a
zero-width lookbehind match, enter a sub-lexer state, emit
`INVALID_EXPRESSION`, or just consume the character. -/
inductive ExprCharResult where
  | exitState
  | continueLookAhead (advance : Nat)
  | continueLookBehind
  | enterString (quote : Char)
  | enterTemplateString
  | enterJsCommentLine
  | enterJsCommentBlock
  | enterRegularExpression
  | error (code : ErrCode)
  | consume
  deriving DecidableEq, Repr

/-- The `switch (code)` of `EXPRESSION.char` (EXPRESSION.ts lines 80-151):
sub-lexer dispatch, bracket pushes, and close-bracket matching against the
group stack. -/
def exprSwitch (s : List Char) (pos : Nat) (code : Char) (e : ExprMeta) :
    ExprCharResult × ExprMeta :=
  if code = '"' then (.enterString '"', e)
  else if code = singleQuoteChar then (.enterString singleQuoteChar, e)
  else if code = backtickChar then (.enterTemplateString, e)
  else if code = '/' then
    match s.get? (pos + 1) with
    | some '/' => (.enterJsCommentLine, e)
    | some '*' => (.enterJsCommentBlock, e)
    | _ =>
      if canBeFollowedByDivision (prevNonWhitespace s pos) then (.consume, e)
      else (.enterRegularExpression, e)
  else if code = '(' then (.consume, { e with groupStack := ')' :: e.groupStack })
  else if code = '[' then (.consume, { e with groupStack := ']' :: e.groupStack })
  else if code = '{' then (.consume, { e with groupStack := '}' :: e.groupStack })
  else if code = ')' ∨ code = ']' ∨ code = '}' then
    match e.groupStack with
    | [] => (.error .INVALID_EXPRESSION, e)
    | expected :: rest =>
      if expected = code then (.consume, { e with groupStack := rest })
      else (.error .INVALID_EXPRESSION, e)
  else (.consume, e)

/-- `EXPRESSION.char` (EXPRESSION.ts lines 40-152). At group-stack depth 0:
a whitespace character with `terminatedByWhitespace` either exits directly
(`skipOperators`), consults the operator pattern, or exits when the pattern
fails; otherwise a matching terminator exits. Every other character goes
through the switch. -/
def exprChar (isConcise : Bool) (s : List Char) (pos : Nat) (code : Char)
    (e : ExprMeta) : ExprCharResult × ExprMeta :=
  if e.groupStack = [] ∧ e.terminatedByWhitespace = true ∧ isWhitespace code = true then
    if e.skipOperators then (.exitState, e)
    else
      match operatorMatch isConcise s pos with
      | some 0 => (.continueLookBehind, e)
      | some (n + 1) => (.continueLookAhead n, e)
      | none => (.exitState, e)
  else if e.groupStack = [] ∧ terminatorMatches s pos code e.terminator = true then
    (.exitState, e)
  else exprSwitch s pos code e

/-- `EXPRESSION.eol` (EXPRESSION.ts lines 154-161): `true` when the state
exits at an end-of-line. -/
def exprEol (e : ExprMeta) : Bool :=
  e.groupStack = [] && (e.terminatedByWhitespace || e.terminatedByEOL)

/-- The parent states `EXPRESSION.eof` distinguishes when reporting an
unterminated expression (EXPRESSION.ts lines 170-212). -/
inductive ExprParent where
  | attribute (spread : Bool) (hasName : Bool)
  | tagName
  | placeholder
  | other
  deriving DecidableEq, Repr

/-- The outcome of `EXPRESSION.eof`. -/
inductive EofResult where
  | exitState
  | error (code : ErrCode)
  deriving DecidableEq, Repr

/-- `EXPRESSION.eof` (EXPRESSION.ts lines 163-220): exit cleanly when the
group stack is empty and the surface mode is concise or the expression is
terminated by EOL; otherwise emit an error named after the parent state. -/
def exprEof (isConcise : Bool) (e : ExprMeta) (parent : ExprParent) : EofResult :=
  if e.groupStack = [] ∧ (isConcise = true ∨ e.terminatedByEOL = true) then
    .exitState
  else
    match parent with
    | .attribute _ _ => .error .MALFORMED_OPEN_TAG
    | .tagName => .error .MALFORMED_OPEN_TAG
    | .placeholder => .error .MALFORMED_PLACEHOLDER
    | .other => .error .INVALID_EXPRESSION

/-! ## The ATTRIBUTE state -/

/-- `ATTR_STAGE` of the ATTRIBUTE state. -/
inductive AttrStage where
  | UNKNOWN
  | NAME
  | VALUE
  | ARGUMENT
  | BLOCK
  deriving DecidableEq, Repr

/-- A half-open `[start, stop)` byte range (the source's `{start, end}`). -/
structure Rng where
  start : Nat
  stop : Nat
  deriving DecidableEq, Repr

/-- `AttrMeta.args`: `false` before any argument (falsy), `true` once a plain
argument has been notified, or the retained parameter ranges when the
argument is being kept for a method block (both truthy). -/
inductive AttrArgs where
  | unset
  | emitted
  | saved (outer : Rng) (value : Rng)
  deriving DecidableEq, Repr

/-- JavaScript truthiness of `AttrMeta.args`. -/
def AttrArgs.truthy : AttrArgs → Bool
  | .unset => false
  | _ => true

/-- The state-specific fields of an ATTRIBUTE frame (`AttrMeta`). -/
structure AttrMeta where
  start : Nat
  stage : AttrStage
  name : Option Rng
  valueStart : Nat
  args : AttrArgs
  spread : Bool
  bound : Bool
  deriving DecidableEq, Repr

/-- `HTML_VALUE_TERMINATORS`: `>` `,` `/>`. -/
def HTML_VALUE_TERMINATORS : List (List Char) := [['>'], [','], ['/', '>']]

/-- `CONCISE_VALUE_TERMINATORS`: `]` `;` `,`. -/
def CONCISE_VALUE_TERMINATORS : List (List Char) := [[']'], [';'], [',']]

/-- `HTML_NAME_TERMINATORS`: `>` `,` `(` `=` `:=` `/>`. -/
def HTML_NAME_TERMINATORS : List (List Char) :=
  [['>'], [','], ['('], ['='], [':', '='], ['/', '>']]

/-- `CONCISE_NAME_TERMINATORS`: `]` `;` `=` `,` `(` `:=`. -/
def CONCISE_NAME_TERMINATORS : List (List Char) :=
  [[']'], [';'], ['='], [','], ['('], [':', '=']]

/-- The expression configuration ATTRIBUTE enters for a VALUE
(`terminatedByWhitespace = true`, mode-specific value terminators). -/
def valueExprCfg (isConcise : Bool) : ExprMeta :=
  ⟨[], .multi (if isConcise then CONCISE_VALUE_TERMINATORS else HTML_VALUE_TERMINATORS),
    false, false, true⟩

/-- The expression configuration for an ARGUMENT (terminator `)`). -/
def argumentExprCfg : ExprMeta := ⟨[], .single ')', false, false, false⟩

/-- The expression configuration for a BLOCK (terminator `}`,
`terminatedByWhitespace` explicitly false). -/
def blockExprCfg : ExprMeta := ⟨[], .single '}', false, false, false⟩

/-- The expression configuration for a NAME (`skipOperators = true`,
mode-specific name terminators). -/
def nameExprCfg (isConcise : Bool) : ExprMeta :=
  ⟨[], .multi (if isConcise then CONCISE_NAME_TERMINATORS else HTML_NAME_TERMINATORS),
    true, false, true⟩

/-- `ensureAttrName` (part_000 lines 744-751): when the attribute has no
name, notify `onAttrName` with the zero-width range at the attribute's
start. Note that `attr.name` itself is not assigned. -/
def ensureAttrName (attr : AttrMeta) : List Rng :=
  match attr.name with
  | none => [⟨attr.start, attr.start⟩]
  | some _ => []

/-- What one invocation of `ATTRIBUTE.char` does: nothing (whitespace),
enter an expression with the given configuration, or exit the attribute. -/
inductive AttrCharResult where
  | stay
  | enterExpr (cfg : ExprMeta)
  | exitState
  deriving DecidableEq, Repr

/-- The result of `ATTRIBUTE.char`: the action, the updated attribute
fields, and the `onAttrName` ranges notified during the call. -/
structure AttrCharOut where
  result : AttrCharResult
  attr : AttrMeta
  nameEvents : List Rng
  deriving DecidableEq, Repr

/-- `ATTRIBUTE.char` (part_000 lines 559-617). `lookAheadFor(s)` of the
parser core compares `s` against the data starting at `pos + 1`; it is
embedded by the direct `s.get?` reads of the following characters. -/
def attrChar (isConcise : Bool) (s : List Char) (pos : Nat) (code : Char)
    (attr : AttrMeta) : AttrCharOut :=
  if isWhitespace code then ⟨.stay, attr, []⟩
  else if code = '=' ∨ (code = ':' ∧ s.get? (pos + 1) = some '=')
      ∨ (code = '.' ∧ s.get? (pos + 1) = some '.' ∧ s.get? (pos + 2) = some '.') then
    let attr1 := { attr with valueStart := pos }
    let out :=
      if code = ':' then
        (ensureAttrName attr1, { attr1 with bound := true })
      else if code = '.' then
        ([], { attr1 with spread := true })
      else
        (ensureAttrName attr1, attr1)
    ⟨.enterExpr (valueExprCfg isConcise), { out.2 with stage := .VALUE }, out.1⟩
  else if code = '(' then
    ⟨.enterExpr argumentExprCfg, { attr with stage := .ARGUMENT }, ensureAttrName attr⟩
  else if code = '{' ∧ attr.args.truthy = true then
    ⟨.enterExpr blockExprCfg, { attr with stage := .BLOCK }, ensureAttrName attr⟩
  else if attr.stage = .UNKNOWN then
    ⟨.enterExpr (nameExprCfg isConcise), { attr with stage := .NAME }, []⟩
  else ⟨.exitState, attr, []⟩

/-! ## The CONCISE_HTML_CONTENT state -/

/-- `OpenTagEnding`, modelled from the spec (§3): how an open tag ended;
only nested-body tags (`tag`) accept children. -/
inductive OpenTagEnding where
  | tag
  | openOnly
  | selfClosed
  deriving DecidableEq, Repr

/-- `BODY_MODE`, modelled from the spec (§3). -/
inductive BodyMode where
  | HTML
  | PARSED_TEXT
  | STATIC_TEXT
  | CDATA
  deriving DecidableEq, Repr

/-- The fields of an open-tag frame that `CONCISE_HTML_CONTENT.char`
consults. -/
structure TagFrame where
  indent : List Char
  nestedIndent : Option (List Char)
  ending : OpenTagEnding
  bodyMode : BodyMode
  deriving DecidableEq, Repr

/-- Which child state the first byte of a concise line dispatches to
(part_000 lines 377-424). -/
inductive ConciseDispatch where
  | beginMixedMode
  | inlineScript
  | delimitedHtmlBlock
  | jsCommentLine
  | jsCommentBlock
  | openTag
  deriving DecidableEq, Repr

/-- The result of the non-whitespace branch of `CONCISE_HTML_CONTENT.char`:
the close-tag events emitted (each is a `(start, end)` pair of synthetic
positions), the remaining open-tag stack (innermost first, with a possibly
updated `nestedIndent`), the error emitted, and the dispatched child
state. -/
structure LineStartOut where
  closes : List (Int × Int)
  stack : List TagFrame
  error : Option ErrCode
  dispatch : Option ConciseDispatch
  deriving DecidableEq, Repr

/-- The `switch (code)` dispatch at the end of `CONCISE_HTML_CONTENT.char`
(part_000 lines 377-424): `<` begins mixed mode, `$` followed by whitespace
enters INLINE_SCRIPT, `--` begins a delimited HTML block while a single `-`
is `ILLEGAL_LINE_START`, `//` and `/*` enter the comment states while any
other `/` is `ILLEGAL_LINE_START`, and everything else opens a tag. -/
def conciseDispatch (s : List Char) (pos : Nat) (code : Char) :
    Option ConciseDispatch × Option ErrCode :=
  if code = '<' then (some .beginMixedMode, none)
  else if code = '$' ∧
      (match s.get? (pos + 1) with | some c => isWhitespace c | none => false) = true then
    (some .inlineScript, none)
  else if code = '-' then
    if s.get? (pos + 1) = some '-' then (some .delimitedHtmlBlock, none)
    else (none, some .ILLEGAL_LINE_START)
  else if code = '/' then
    match s.get? (pos + 1) with
    | some '/' => (some .jsCommentLine, none)
    | some '*' => (some .jsCommentBlock, none)
    | _ => (none, some .ILLEGAL_LINE_START)
  else (some .openTag, none)

/-- The tags the `while` loop of `CONCISE_HTML_CONTENT.char` closes: the
maximal prefix (from the innermost tag) whose recorded indent is at least as
long as the current line's. -/
def closedTags (indent : List Char) (stack : List TagFrame) : List TagFrame :=
  stack.takeWhile fun t => indent.length ≤ t.indent.length

/-- The open tags that survive the closing loop. -/
def remainingTags (indent : List Char) (stack : List TagFrame) : List TagFrame :=
  stack.dropWhile fun t => indent.length ≤ t.indent.length

/-- The close-tag events the closing loop emits: one per closed tag, each at
the zero-width synthetic position `indentStart = pos - indent.length - 1`
(part_000 lines 324-330). -/
def lineCloses (pos : Nat) (indent : List Char) (stack : List TagFrame) :
    List (Int × Int) :=
  (closedTags indent stack).map fun _ =>
    ((pos : Int) - indent.length - 1, (pos : Int) - indent.length - 1)

/-- The non-whitespace branch of `CONCISE_HTML_CONTENT.char` (part_000 lines
319-426). `indent` is the accumulated leading whitespace of the line,
`stack` the open concise tags (innermost first), `code` the character at
`pos`. Tags whose `indent` is at least as long as the current line's are
closed at the synthetic position `pos - indent.length - 1`; a dedent below
the root with non-zero indent is `BAD_INDENTATION`; the surviving parent
must allow a nested body, PARSED_TEXT bodies only accept `-` lines, and the
parent's `nestedIndent` is recorded on the first child line and must match
byte-exactly afterwards. -/
def conciseLineStart (s : List Char) (pos : Nat) (indent : List Char)
    (stack : List TagFrame) (code : Char) : LineStartOut :=
  match remainingTags indent stack with
  | [] =>
    if indent.length ≠ 0 then
      ⟨lineCloses pos indent stack, [], some .BAD_INDENTATION, none⟩
    else
      ⟨lineCloses pos indent stack, [], (conciseDispatch s pos code).2,
        (conciseDispatch s pos code).1⟩
  | parent :: below =>
    if parent.ending ≠ .tag then
      ⟨lineCloses pos indent stack, parent :: below, some .INVALID_BODY, none⟩
    else if parent.bodyMode = .PARSED_TEXT ∧ code ≠ '-' then
      ⟨lineCloses pos indent stack, parent :: below, some .ILLEGAL_LINE_START, none⟩
    else
      match parent.nestedIndent with
      | none =>
        ⟨lineCloses pos indent stack,
          { parent with nestedIndent := some indent } :: below,
          (conciseDispatch s pos code).2, (conciseDispatch s pos code).1⟩
      | some ni =>
        if ni ≠ indent then
          ⟨lineCloses pos indent stack, parent :: below, some .BAD_INDENTATION, none⟩
        else
          ⟨lineCloses pos indent stack, parent :: below,
            (conciseDispatch s pos code).2, (conciseDispatch s pos code).1⟩

/-- Drive successive direct child lines of one open tag through
`conciseLineStart`: each line's indent is processed against the parent
alone, stopping at the first error. Returns the first error (if any) and
the final parent frame. -/
def runChildLines (s : List Char) (pos : Nat) (code : Char) :
    TagFrame → List (List Char) → Option ErrCode × TagFrame
  | parent, [] => (none, parent)
  | parent, ind :: rest =>
    match (conciseLineStart s pos ind [parent] code).error,
          (conciseLineStart s pos ind [parent] code).stack with
    | some e, _ => (some e, parent)
    | none, [p] => runChildLines s pos code p rest
    | none, _ => (none, parent)

/-! ## The notifier module -/

/-- Which listeners the consumer registered (`createNotifiers`' `listeners`,
one flag per `onXxx` callback). -/
structure Handlers where
  onText : Bool
  onCDATA : Bool
  onError : Bool
  onOpenTagName : Bool
  onOpenTag : Bool
  onCloseTag : Bool
  onDocumentType : Bool
  onDeclaration : Bool
  onComment : Bool
  onScriptlet : Bool
  onPlaceholder : Bool
  onFinish : Bool
  deriving DecidableEq, Repr

/-- One call into the notifier module (part_000 lines 3-293), carrying the
payload the guards inspect. -/
inductive NotifyCall where
  | text (value : String)
  | cdata (value : String)
  | error (pos : Nat) (code : ErrCode)
  | openTagName
  | openTag
  | closeTag
  | documentType
  | declaration
  | comment (value : String)
  | scriptlet (value : String)
  | placeholder
  | finish
  deriving DecidableEq, Repr

/-- A handler invocation observed by the consumer. -/
inductive Event where
  | text (value : String)
  | cdata
  | error (code : ErrCode)
  | openTagName
  | openTag
  | closeTag
  | documentType
  | declaration
  | comment
  | scriptlet
  | placeholder
  | finish
  deriving DecidableEq, Repr

/-- Is the event an error event? -/
def Event.isError : Event → Bool
  | .error _ => true
  | _ => false

/-- Is the event the finish event? -/
def Event.isFinish : Event → Bool
  | .finish => true
  | _ => false

/-- One notifier call (part_000 lines 3-293): given the `hasError` latch, the
new latch value and the handler invocation the consumer observes (if any).
Every notifier returns early when `hasError` is set except `notifyFinish`;
`notifyError` sets the latch; `notifyText`, `notifyCDATA`, `notifyComment`
and `notifyScriptlet` additionally require a truthy (non-empty) value. -/
def notifyStep (h : Handlers) (hasError : Bool) : NotifyCall → Bool × Option Event
  | .text v =>
    (hasError,
      if hasError then none
      else if h.onText && decide (0 < v.length) then some (.text v) else none)
  | .cdata v =>
    (hasError,
      if hasError then none
      else if h.onCDATA && decide (0 < v.length) then some .cdata else none)
  | .error _ code =>
    (true, if hasError then none else if h.onError then some (.error code) else none)
  | .openTagName =>
    (hasError, if hasError then none else if h.onOpenTagName then some .openTagName else none)
  | .openTag =>
    (hasError, if hasError then none else if h.onOpenTag then some .openTag else none)
  | .closeTag =>
    (hasError, if hasError then none else if h.onCloseTag then some .closeTag else none)
  | .documentType =>
    (hasError, if hasError then none else if h.onDocumentType then some .documentType else none)
  | .declaration =>
    (hasError, if hasError then none else if h.onDeclaration then some .declaration else none)
  | .comment v =>
    (hasError,
      if hasError then none
      else if h.onComment && decide (0 < v.length) then some .comment else none)
  | .scriptlet v =>
    (hasError,
      if hasError then none
      else if h.onScriptlet && decide (0 < v.length) then some .scriptlet else none)
  | .placeholder =>
    (hasError, if hasError then none else if h.onPlaceholder then some .placeholder else none)
  | .finish => (hasError, if h.onFinish then some .finish else none)

/-- Run a sequence of notifier calls from a given latch state, collecting
the handler invocations the consumer observes. -/
def notifyRun (h : Handlers) : Bool → List NotifyCall → List Event
  | _, [] => []
  | e, c :: cs =>
    match (notifyStep h e c).2 with
    | some x => x :: notifyRun h (notifyStep h e c).1 cs
    | none => notifyRun h (notifyStep h e c).1 cs

/-! ## Theorems

One theorem per claim (C1-C10), with shared helper lemmas. -/

/-- Claim C1 (evidence of the code bug): the operator pattern's word-operator
alternative is `\bin(?:stanceof)(?=...)` with no `?` after `(?:stanceof)`,
so the lone word operator `in` never matches — contradicting the source's
own comment ("We only continue after word operators (instanceof/in)…"). At
the whitespace of `x in y` the pattern fails in both modes and the
expression exits, while `x instanceof y` continues past the operator. -/
theorem word_operator_in_never_continues :
    operatorMatch false (" in y".data) 0 = none
    ∧ operatorMatch true (" in y".data) 0 = none
    ∧ operatorMatch false (" instanceof y".data) 0 = some 12
    ∧ (exprChar false ("x in y".data) 1 ' '
        ⟨[], .multi HTML_VALUE_TERMINATORS, false, false, true⟩).1 = .exitState
    ∧ (exprChar false ("x instanceof y".data) 1 ' '
        ⟨[], .multi HTML_VALUE_TERMINATORS, false, false, true⟩).1
        = .continueLookAhead 11 := by
  decide

/-- Claim C2, counterexample: whitespace followed by `[` does NOT continue
the expression in concise mode, and DOES continue it in verbose (html)
mode — the reverse of the claim. -/
theorem square_bracket_lookahead_counterexample :
    operatorMatch true (" [a]".data) 0 = none
    ∧ operatorMatch false (" [a]".data) 0 = some 1 := by
  decide

/-- Claim C2 as amended: whitespace followed by `{` or `(` continues the
expression in both surface modes, while whitespace followed by `[` continues
it only in verbose (html) mode and never in concise mode. -/
theorem bracket_continuation_by_mode (b : Bool) (rest : List Char) :
    operatorMatch b (' ' :: '{' :: rest) 0 = some 1
    ∧ operatorMatch b (' ' :: '(' :: rest) 0 = some 1
    ∧ operatorMatch false (' ' :: '[' :: rest) 0 = some 1
    ∧ operatorMatch true (' ' :: '[' :: rest) 0 = none :=
  ⟨rfl, rfl, rfl, rfl⟩

lemma exprSwitch_ne_exit (s : List Char) (pos : Nat) (code : Char) (e : ExprMeta) :
    (exprSwitch s pos code e).1 ≠ .exitState := by
  intro hx
  unfold exprSwitch at hx
  repeat' (split at hx)
  all_goals exact ExprCharResult.noConfusion hx

/-- Claim C8: an EXPRESSION frame exits cleanly only with an empty
`groupStack` — both `char` and `eol` exit only at depth 0 — and a closing
bracket that arrives with an empty stack without being a terminator, or
that fails to match the top of the stack, yields `INVALID_EXPRESSION`. -/
theorem expression_clean_exit_requires_empty_groups
    (isConcise : Bool) (s : List Char) (pos : Nat) (code : Char) (e : ExprMeta) :
    ((exprChar isConcise s pos code e).1 = .exitState → e.groupStack = [])
    ∧ (exprEol e = true → e.groupStack = [])
    ∧ (e.groupStack = [] → terminatorMatches s pos code e.terminator = false →
        code = ')' ∨ code = ']' ∨ code = '}' →
        (exprChar isConcise s pos code e).1 = .error .INVALID_EXPRESSION)
    ∧ (∀ top others, e.groupStack = top :: others → top ≠ code →
        (code = ')' ∨ code = ']' ∨ code = '}') →
        (exprChar isConcise s pos code e).1 = .error .INVALID_EXPRESSION) := by
  refine ⟨?_, ?_, ?_, ?_⟩
  · intro hx
    unfold exprChar at hx
    by_cases h1 : e.groupStack = [] ∧ e.terminatedByWhitespace = true ∧ isWhitespace code = true
    · exact h1.1
    · rw [if_neg h1] at hx
      by_cases h2 : e.groupStack = [] ∧ terminatorMatches s pos code e.terminator = true
      · exact h2.1
      · rw [if_neg h2] at hx
        exact absurd hx (exprSwitch_ne_exit s pos code e)
  · intro hx
    unfold exprEol at hx
    simp only [Bool.and_eq_true, decide_eq_true_eq] at hx
    exact hx.1
  · rintro hempty hterm (rfl | rfl | rfl) <;>
    · rcases e with ⟨gs, term, sk, teol, tbw⟩
      simp only at hempty
      subst hempty
      unfold exprChar
      rw [if_neg (fun hc => absurd hc.2.2 (by decide)),
        if_neg (fun hc => Bool.false_ne_true (hterm ▸ hc.2))]
      rfl
  · rintro top others hstack htop (rfl | rfl | rfl) <;>
    · rcases e with ⟨gs, term, sk, teol, tbw⟩
      simp only at hstack
      subst hstack
      unfold exprChar
      rw [if_neg (fun hc => List.cons_ne_nil top others hc.1),
        if_neg (fun hc => List.cons_ne_nil top others hc.1)]
      simp +decide [exprSwitch, htop]

/-- Claim C4: when EOF is reached inside an expression whose group stack is
non-empty, or whose terminator was still required (neither the concise mode
nor `terminatedByEOL` allows the EOF to end it), the emitted error code is
determined by the parent state: `MALFORMED_OPEN_TAG` for an attribute or a
tag name, `MALFORMED_PLACEHOLDER` for a placeholder, `INVALID_EXPRESSION`
otherwise. -/
theorem expression_eof_error_by_parent (isConcise : Bool) (e : ExprMeta) (p : ExprParent)
    (h : e.groupStack ≠ [] ∨ (isConcise = false ∧ e.terminatedByEOL = false)) :
    exprEof isConcise e p = .error
      (match p with
       | .attribute _ _ => ErrCode.MALFORMED_OPEN_TAG
       | .tagName => ErrCode.MALFORMED_OPEN_TAG
       | .placeholder => ErrCode.MALFORMED_PLACEHOLDER
       | .other => ErrCode.INVALID_EXPRESSION) := by
  unfold exprEof
  rw [if_neg]
  · cases p <;> rfl
  · rintro ⟨h1, h2⟩
    rcases h with h | ⟨h3, h4⟩
    · exact h h1
    · rcases h2 with h2 | h2
      · rw [h3] at h2; exact Bool.false_ne_true h2
      · rw [h4] at h2; exact Bool.false_ne_true h2

/-- Witness for C4: an unclosed `{` inside a placeholder expression at EOF
in verbose mode yields `MALFORMED_PLACEHOLDER`. -/
theorem expression_eof_error_by_parent_witness :
    exprEof false ⟨['}'], .unset, false, false, false⟩ .placeholder
      = .error .MALFORMED_PLACEHOLDER :=
  expression_eof_error_by_parent false ⟨['}'], .unset, false, false, false⟩ .placeholder
    (Or.inl (by decide))

/-- Claim C5, counterexample: a `{` with no parsed name and no arguments
does NOT enter the BLOCK stage — it starts the attribute NAME expression
instead (the current ATTRIBUTE state requires `attr.args` to be truthy). -/
theorem attribute_block_without_args_counterexample :
    (attrChar false ("{ }".data) 0 '{'
        ⟨0, .UNKNOWN, none, 0, .unset, false, false⟩).result
      = .enterExpr (nameExprCfg false)
    ∧ (attrChar false ("{ }".data) 0 '{'
        ⟨0, .UNKNOWN, none, 0, .unset, false, false⟩).result ≠ .enterExpr blockExprCfg
    ∧ (attrChar false ("{ }".data) 0 '{'
        ⟨0, .UNKNOWN, none, 0, .unset, false, false⟩).attr.stage ≠ .BLOCK := by
  decide

/-- Claim C5 as amended: a `{` byte triggers the BLOCK stage — entering an
expression with terminator `}` — exactly when the attribute's arguments
have been set (`attr.args` truthy); without arguments it never enters
BLOCK, even when no name has been parsed. -/
theorem attribute_block_stage_iff_args (isConcise : Bool) (s : List Char) (pos : Nat)
    (attr : AttrMeta) :
    ((attrChar isConcise s pos '{' attr).result = .enterExpr blockExprCfg
      ↔ attr.args.truthy = true)
    ∧ (attr.args.truthy = true →
        (attrChar isConcise s pos '{' attr).attr.stage = .BLOCK
        ∧ (attrChar isConcise s pos '{' attr).nameEvents = ensureAttrName attr) := by
  rcases attr with ⟨st, stage, nm, vs, args, sp, bd⟩
  cases args <;>
    simp +decide [attrChar, AttrArgs.truthy, blockExprCfg, nameExprCfg, valueExprCfg,
      argumentExprCfg] <;>
    cases stage <;> simp +decide [Terminator.multi.injEq]

lemma takeWhile_filter_of_pairwise {α : Type} (p : α → Bool) :
    ∀ l : List α, l.Pairwise (fun a b => p b = true → p a = true) →
      l.takeWhile p = l.filter p ∧ ∀ a ∈ l.dropWhile p, p a = false := by
  intro l
  induction l with
  | nil => intro _; exact ⟨rfl, by simp⟩
  | cons x xs ih =>
    intro hp
    rcases List.pairwise_cons.mp hp with ⟨hx, hxs⟩
    rcases ih hxs with ⟨ihtake, ihdrop⟩
    cases hpx : p x with
    | true =>
      refine ⟨?_, ?_⟩
      · simp [List.takeWhile_cons, List.filter_cons, hpx, ihtake]
      · simpa [List.dropWhile_cons, hpx] using ihdrop
    | false =>
      have hall : ∀ b ∈ xs, p b = false := fun b hb => by
        cases hb2 : p b with
        | true => exact absurd (hx b hb hb2) (by simp [hpx])
        | false => rfl
      refine ⟨?_, ?_⟩
      · have hnil : xs.filter p = [] := List.filter_eq_nil_iff.mpr (by
          intro b hb
          simp [hall b hb])
        simp [List.takeWhile_cons, List.filter_cons, hpx, hnil]
      · intro a ha
        rw [List.dropWhile_cons] at ha
        simp only [hpx] at ha
        rcases List.mem_cons.mp ha with rfl | ha
        · exact hpx
        · exact hall a ha

lemma conciseLineStart_closes_eq (s : List Char) (pos : Nat) (indent : List Char)
    (stack : List TagFrame) (code : Char) :
    (conciseLineStart s pos indent stack code).closes = lineCloses pos indent stack := by
  unfold conciseLineStart
  repeat' (split)
  all_goals rfl

/-- Claim C6, counterexample: for the input `div\n  span\n  p` the third
line (indent `"  "`, first byte `p` at offset 13) closes the `span` tag at
the synthetic position 10 = pos − indentLength − 1 (the newline before the
indent), not at 12 = pos − 1, the position just before the current byte. -/
theorem concise_close_position_counterexample :
    (conciseLineStart ("div\n  span\n  p".data) 13 ("  ".data)
        [⟨"  ".data, none, .tag, .HTML⟩, ⟨[], some ("  ".data), .tag, .HTML⟩] 'p').closes
      = [(10, 10)]
    ∧ ((10 : Int), (10 : Int)) ≠ ((13 : Int) - 1, (13 : Int) - 1) := by
  decide

/-- Claim C6 as amended: on the first non-whitespace byte of a concise line
the parser closes exactly the open tags whose recorded indent length is at
least the current line's indent length (the stack's indent lengths grow
toward the innermost tag, so the closed prefix is all such tags), emits the
close events at the synthetic position `pos − indentLength − 1` (just
before the line's indentation, not just before the current byte), and when
no tag remains open while the line's indent is non-zero it emits
`BAD_INDENTATION`. -/
theorem concise_line_start_dedent_closes (s : List Char) (pos : Nat)
    (indent : List Char) (stack : List TagFrame) (code : Char)
    (hpw : stack.Pairwise fun a b => b.indent.length ≤ a.indent.length) :
    (conciseLineStart s pos indent stack code).closes
      = (stack.filter fun t => indent.length ≤ t.indent.length).map
          (fun _ => ((pos : Int) - indent.length - 1, (pos : Int) - indent.length - 1))
    ∧ ((∀ t ∈ stack, indent.length ≤ t.indent.length) → indent.length ≠ 0 →
        (conciseLineStart s pos indent stack code).error = some .BAD_INDENTATION)
    ∧ (∀ t ∈ (conciseLineStart s pos indent stack code).stack,
        t.indent.length < indent.length) := by
  have hpw2 : stack.Pairwise (fun a b =>
      (fun t : TagFrame => decide (indent.length ≤ t.indent.length)) b = true →
      (fun t : TagFrame => decide (indent.length ≤ t.indent.length)) a = true) := by
    refine hpw.imp ?_
    intro a b hle hb
    simp only [decide_eq_true_eq] at hb ⊢
    exact le_trans hb hle
  rcases takeWhile_filter_of_pairwise _ stack hpw2 with ⟨htake, hdrop⟩
  refine ⟨?_, ?_, ?_⟩
  · rw [conciseLineStart_closes_eq]
    unfold lineCloses closedTags
    rw [htake]
  · intro hall hne
    have hrest : remainingTags indent stack = [] := by
      unfold remainingTags
      exact List.dropWhile_eq_nil_iff.mpr (fun t ht => by simp [hall t ht])
    unfold conciseLineStart
    rw [hrest]
    simp only [if_pos hne]
  · intro t ht
    have hfail : ∀ a ∈ remainingTags indent stack, ¬(indent.length ≤ a.indent.length) := by
      intro a ha
      have := hdrop a ha
      simpa using this
    unfold conciseLineStart at ht
    revert ht
    split
    · split <;> (intro ht; exact absurd ht (List.not_mem_nil t))
    · next parent below heq =>
      have hparent : ¬(indent.length ≤ parent.indent.length) :=
        hfail parent (heq ▸ List.mem_cons_self parent below)
      have hbelow : ∀ a ∈ below, ¬(indent.length ≤ a.indent.length) := fun a ha =>
        hfail a (heq ▸ List.mem_cons_of_mem parent ha)
      split <;> intro ht
      · rcases List.mem_cons.mp ht with rfl | ht
        · exact Nat.lt_of_not_le hparent
        · exact Nat.lt_of_not_le (hbelow t ht)
      · split at ht
        · rcases List.mem_cons.mp ht with rfl | ht2
          · exact Nat.lt_of_not_le hparent
          · exact Nat.lt_of_not_le (hbelow t ht2)
        · split at ht
          · rcases List.mem_cons.mp ht with rfl | ht2
            · exact Nat.lt_of_not_le hparent
            · exact Nat.lt_of_not_le (hbelow t ht2)
          · split at ht <;>
            · rcases List.mem_cons.mp ht with rfl | ht2
              · exact Nat.lt_of_not_le hparent
              · exact Nat.lt_of_not_le (hbelow t ht2)

/-- Witness for C6: after `div\nx` (a dedent back to column zero at offset
4) the single open tag is closed at position 3 = 4 − 0 − 1. -/
theorem concise_line_start_dedent_closes_witness :
    (conciseLineStart ("div\nx".data) 4 [] [⟨[], none, .tag, .HTML⟩] 'x').closes
      = (([⟨[], none, .tag, .HTML⟩] : List TagFrame).filter
          fun t => ([] : List Char).length ≤ t.indent.length).map
          (fun _ => (((4 : Nat) : Int) - ([] : List Char).length - 1,
            ((4 : Nat) : Int) - ([] : List Char).length - 1)) :=
  (concise_line_start_dedent_closes ("div\nx".data) 4 [] [⟨[], none, .tag, .HTML⟩] 'x'
    (by simp)).1

lemma conciseDispatch_error_free (s : List Char) (pos : Nat) (code : Char)
    (h1 : code ≠ '-') (h2 : code ≠ '/') : (conciseDispatch s pos code).2 = none := by
  unfold conciseDispatch
  repeat' (split)
  all_goals rfl

lemma conciseLineStart_single_parent (s : List Char) (pos : Nat) (code : Char)
    (parent : TagFrame) (ind : List Char)
    (hend : parent.ending = .tag) (hbody : parent.bodyMode ≠ .PARSED_TEXT)
    (hc1 : code ≠ '-') (hc2 : code ≠ '/') (hlt : parent.indent.length < ind.length) :
    conciseLineStart s pos ind [parent] code =
      match parent.nestedIndent with
      | none =>
        ⟨[], [{ parent with nestedIndent := some ind }], none, (conciseDispatch s pos code).1⟩
      | some ni =>
        if ni = ind then ⟨[], [parent], none, (conciseDispatch s pos code).1⟩
        else ⟨[], [parent], some .BAD_INDENTATION, none⟩ := by
  have hnp : ¬(ind.length ≤ parent.indent.length) := Nat.not_le.mpr hlt
  have hrem : remainingTags ind [parent] = [parent] := by
    unfold remainingTags
    simp [hnp]
  have hclo : lineCloses pos ind [parent] = [] := by
    unfold lineCloses closedTags
    simp [hnp]
  have hdisp := conciseDispatch_error_free s pos code hc1 hc2
  unfold conciseLineStart
  simp only [hrem]
  rw [if_neg (fun hne => hne hend), if_neg (fun hc => hbody hc.1)]
  cases hni : parent.nestedIndent with
  | none => simp only [hni, hclo, hdisp]
  | some ni =>
    simp only [hni]
    by_cases hx : ni = ind
    · rw [if_neg (fun hne => hne hx), if_pos hx, hclo, hdisp]
    · rw [if_pos hx, if_neg hx, hclo]

lemma runChildLines_known (s : List Char) (pos : Nat) (code : Char)
    (hc1 : code ≠ '-') (hc2 : code ≠ '/') (parent : TagFrame) (ni : List Char)
    (hend : parent.ending = .tag) (hbody : parent.bodyMode ≠ .PARSED_TEXT)
    (hni : parent.nestedIndent = some ni) :
    ∀ rest : List (List Char), (∀ j ∈ rest, parent.indent.length < j.length) →
      ((runChildLines s pos code parent rest).1 = none ↔ ∀ j ∈ rest, j = ni) := by
  intro rest
  induction rest with
  | nil => intro _; simp [runChildLines]
  | cons j rest ih =>
    intro hall
    have hstep := conciseLineStart_single_parent s pos code parent j hend hbody hc1 hc2
      (hall j (List.mem_cons_self j rest))
    simp only [hni] at hstep
    by_cases hji : ni = j
    · rw [if_pos hji] at hstep
      have hrun : runChildLines s pos code parent (j :: rest)
          = runChildLines s pos code parent rest := by
        rw [runChildLines, hstep]
      rw [hrun]
      rw [ih (fun i hi => hall i (List.mem_cons_of_mem j hi))]
      constructor
      · intro hres i hi
        rcases List.mem_cons.mp hi with rfl | hi
        · exact hji.symm
        · exact hres i hi
      · intro hres i hi
        exact hres i (List.mem_cons_of_mem j hi)
    · rw [if_neg hji] at hstep
      have hrun : runChildLines s pos code parent (j :: rest)
          = (some .BAD_INDENTATION, parent) := by
        rw [runChildLines, hstep]
      rw [hrun]
      simp only [Option.some_ne_none, false_iff]
      intro hres
      exact hji (hres j (List.mem_cons_self j rest)).symm

/-- Claim C7: under an open tag that allows body content, the first child
line records its indent as the tag's `nestedIndent`; every later direct
child line must match it byte-exactly, a mismatch yields `BAD_INDENTATION`,
and an equal indent passes — so a run of child lines is error-free exactly
when every line's indent equals the first line's. -/
theorem concise_nested_indent_uniform (s : List Char) (pos : Nat) (code : Char)
    (parent : TagFrame) (ind : List Char)
    (hend : parent.ending = .tag)
    (hbody : parent.bodyMode ≠ .PARSED_TEXT)
    (hc1 : code ≠ '-') (hc2 : code ≠ '/')
    (hlt : parent.indent.length < ind.length) :
    (parent.nestedIndent = none →
        (conciseLineStart s pos ind [parent] code).stack
          = [{ parent with nestedIndent := some ind }]
        ∧ (conciseLineStart s pos ind [parent] code).error = none)
    ∧ (∀ ni, parent.nestedIndent = some ni → ni ≠ ind →
        (conciseLineStart s pos ind [parent] code).error = some .BAD_INDENTATION)
    ∧ (∀ ni, parent.nestedIndent = some ni → ni = ind →
        (conciseLineStart s pos ind [parent] code).error = none
        ∧ (conciseLineStart s pos ind [parent] code).stack = [parent])
    ∧ (∀ rest : List (List Char), parent.nestedIndent = none →
        (∀ j ∈ rest, parent.indent.length < j.length) →
        ((runChildLines s pos code parent (ind :: rest)).1 = none
          ↔ ∀ j ∈ rest, j = ind)) := by
  have hstep := conciseLineStart_single_parent s pos code parent ind hend hbody hc1 hc2 hlt
  refine ⟨?_, ?_, ?_, ?_⟩
  · intro hni
    simp only [hni] at hstep
    rw [hstep]
    exact ⟨rfl, rfl⟩
  · intro ni hni hne
    simp only [hni] at hstep
    rw [if_neg hne] at hstep
    rw [hstep]
  · intro ni hni heqi
    simp only [hni] at hstep
    rw [if_pos heqi] at hstep
    rw [hstep]
    exact ⟨rfl, rfl⟩
  · intro rest hni hall
    simp only [hni] at hstep
    have hfirst : runChildLines s pos code parent (ind :: rest)
        = runChildLines s pos code { parent with nestedIndent := some ind } rest := by
      rw [runChildLines, hstep]
    rw [hfirst]
    exact runChildLines_known s pos code hc1 hc2 { parent with nestedIndent := some ind }
      ind hend hbody rfl rest hall

/-- Witness for C7: a root tag with two child lines of indent `" "` and a
would-be third line — the run over `[" ", " "]` after the first line `" "`
is error-free because the indents all match. -/
theorem concise_nested_indent_uniform_witness :
    (runChildLines ("d\n a\n a\n b".data) 3 'a' ⟨[], none, .tag, .HTML⟩
      [[' '], [' ']]).1 = none ↔ ∀ j ∈ [[' ']], j = [' '] :=
  (concise_nested_indent_uniform ("d\n a\n a\n b".data) 3 'a' ⟨[], none, .tag, .HTML⟩
    [' '] rfl (by decide) (by decide) (by decide) (by decide)).2.2.2
    [[' ']] rfl (by decide)

/-- Claim C9, counterexample: the spread trigger `...` moves the attribute
into the VALUE stage without emitting any attribute-name event and with
`attr.name` still unset — no zero-width name is synthesized for it. -/
theorem spread_value_name_counterexample :
    (attrChar false ("...x".data) 0 '.'
        ⟨5, .UNKNOWN, none, 5, .unset, false, false⟩).attr.stage = .VALUE
    ∧ (attrChar false ("...x".data) 0 '.'
        ⟨5, .UNKNOWN, none, 5, .unset, false, false⟩).nameEvents = []
    ∧ (attrChar false ("...x".data) 0 '.'
        ⟨5, .UNKNOWN, none, 5, .unset, false, false⟩).attr.name = none
    ∧ (attrChar false ("...x".data) 0 '.'
        ⟨5, .UNKNOWN, none, 5, .unset, false, false⟩).attr.spread = true := by
  decide

/-- Claim C9 as amended: on a `=` or `:=` trigger with no parsed name, a
zero-width name range at the attribute's start is emitted to the attr-name
handler (but `attr.name` itself stays unset); the `...` spread trigger
emits no name event at all. -/
theorem value_trigger_name_events (isConcise : Bool) (s : List Char) (pos : Nat)
    (attr : AttrMeta) (hname : attr.name = none) :
    ((attrChar isConcise s pos '=' attr).nameEvents = [⟨attr.start, attr.start⟩]
      ∧ (attrChar isConcise s pos '=' attr).attr.stage = .VALUE
      ∧ (attrChar isConcise s pos '=' attr).attr.name = none)
    ∧ (s.get? (pos + 1) = some '=' →
        (attrChar isConcise s pos ':' attr).nameEvents = [⟨attr.start, attr.start⟩]
        ∧ (attrChar isConcise s pos ':' attr).attr.stage = .VALUE
        ∧ (attrChar isConcise s pos ':' attr).attr.name = none)
    ∧ (s.get? (pos + 1) = some '.' → s.get? (pos + 2) = some '.' →
        (attrChar isConcise s pos '.' attr).nameEvents = []
        ∧ (attrChar isConcise s pos '.' attr).attr.stage = .VALUE
        ∧ (attrChar isConcise s pos '.' attr).attr.name = none) := by
  rcases attr with ⟨st, stage, nm, vs, args, sp, bd⟩
  simp only at hname
  subst hname
  refine ⟨?_, ?_, ?_⟩
  · simp +decide [attrChar, ensureAttrName]
  · intro h2
    simp only [List.get?_eq_getElem?] at h2
    simp +decide [attrChar, ensureAttrName, h2]
  · intro h2 h3
    simp only [List.get?_eq_getElem?] at h2 h3
    simp +decide [attrChar, ensureAttrName, h2, h3]

/-- Witness for C9 (amended): at `=x` with no name parsed, the zero-width
name range at the attribute start is emitted. -/
theorem value_trigger_name_events_witness :
    (attrChar false ("=x".data) 0 '='
        ⟨0, .UNKNOWN, none, 0, .unset, false, false⟩).nameEvents = [⟨0, 0⟩] :=
  (value_trigger_name_events false ("=x".data) 0
    ⟨0, .UNKNOWN, none, 0, .unset, false, false⟩ rfl).1.1

lemma notifyStep_true_fst (h : Handlers) (c : NotifyCall) : (notifyStep h true c).1 = true := by
  cases c <;> rfl

lemma notifyStep_true_events (h : Handlers) (c : NotifyCall) (ev : Event)
    (hev : (notifyStep h true c).2 = some ev) : ev.isFinish = true := by
  cases c <;> simp only [notifyStep] at hev
  case finish =>
    split at hev
    · injection hev with hx
      rw [← hx]
      rfl
    · exact absurd hev (by simp)
  all_goals simp at hev

lemma notifyRun_true_finish (h : Handlers) (ds : List NotifyCall) :
    ∀ ev ∈ notifyRun h true ds, ev.isFinish = true := by
  induction ds with
  | nil => intro ev hev; simp [notifyRun] at hev
  | cons c cs ih =>
    intro ev hev
    rw [notifyRun] at hev
    rcases hstep : (notifyStep h true c).2 with - | x
    · rw [hstep, notifyStep_true_fst h c] at hev
      exact ih ev hev
    · rw [hstep, notifyStep_true_fst h c] at hev
      rcases List.mem_cons.mp hev with rfl | hev2
      · exact notifyStep_true_events h c ev hstep
      · exact ih ev hev2

lemma isFinish_not_isError (ev : Event) (hfin : ev.isFinish = true) : ev.isError = false := by
  cases ev <;> first | rfl | exact absurd hfin (by simp [Event.isFinish])

lemma run_true_no_errors (h : Handlers) (ds : List NotifyCall) :
    (notifyRun h true ds).filter Event.isError = [] :=
  List.filter_eq_nil_iff.mpr fun ev hev => by
    simp [isFinish_not_isError ev (notifyRun_true_finish h ds ev hev)]

lemma notifyStep_false_events (h : Handlers) (c : NotifyCall) (x : Event)
    (hnc : (notifyStep h false c).1 = false)
    (hstep : (notifyStep h false c).2 = some x) : x.isError = false := by
  cases c <;> simp only [notifyStep] at hnc hstep
  all_goals
    repeat' (split at hstep)
  all_goals
    first
      | exact Option.noConfusion hstep
      | (injection hstep with hx
         all_goals (rw [← hx]; rfl))
      | exact absurd hnc (by simp)

/-- Claim C3: notifier one-shot error behavior — a run started with the
latch clear emits at most one error event; from a latched state every
emitted event is the finish event (all other notifications are no-ops);
and a `notifyError` call always leaves the latch set. -/
theorem one_shot_error_events (h : Handlers) (cs ds : List NotifyCall) :
    ((notifyRun h false cs).filter Event.isError).length ≤ 1
    ∧ (∀ ev ∈ notifyRun h true ds, ev.isFinish = true)
    ∧ (∀ (b : Bool) (p : Nat) (c : ErrCode), (notifyStep h b (.error p c)).1 = true) := by
  refine ⟨?_, notifyRun_true_finish h ds, fun b p c => by cases b <;> rfl⟩
  induction cs with
  | nil => simp [notifyRun]
  | cons c cs ih =>
    rw [notifyRun]
    rcases hstep : (notifyStep h false c).2 with - | x
    · simp only [hstep]
      cases hfst : (notifyStep h false c).1
      · exact ih
      · rw [run_true_no_errors]
        simp
    · simp only [hstep]
      cases hfst : (notifyStep h false c).1
      · simp only [List.filter_cons]
        rw [notifyStep_false_events h c x hfst hstep]
        simp only [Bool.false_eq_true, if_false]
        exact ih
      · simp only [List.filter_cons]
        rw [run_true_no_errors]
        split <;> simp

/-- Claim C10: a text event reaches the consumer only with a non-empty
value — any `Event.text v` in a run has `v.length > 0`, and a `notifyText`
call with a zero-length value never invokes the handler. -/
theorem text_handler_requires_nonempty_value (h : Handlers) (b : Bool)
    (cs : List NotifyCall) (v : String) :
    (Event.text v ∈ notifyRun h b cs → 0 < v.length)
    ∧ (v.length = 0 → (notifyStep h b (.text v)).2 = none) := by
  constructor
  · induction cs generalizing b with
    | nil => intro hmem; simp [notifyRun] at hmem
    | cons c cs ih =>
      intro hmem
      rw [notifyRun] at hmem
      rcases hstep : (notifyStep h b c).2 with - | x
      · rw [hstep] at hmem
        exact ih _ hmem
      · rw [hstep] at hmem
        rcases List.mem_cons.mp hmem with heq | hmem2
        · subst heq
          cases c <;> simp only [notifyStep] at hstep
          case text w =>
            split at hstep
            · exact absurd hstep (by simp)
            · split at hstep
              · next hcond =>
                injection hstep with hx
                injection hx with hw
                rw [← hw]
                simp only [Bool.and_eq_true, decide_eq_true_eq] at hcond
                exact hcond.2
              · exact absurd hstep (by simp)
          all_goals repeat' (split at hstep)
          all_goals simp at hstep
        · exact ih _ hmem2
  · intro hv
    cases b <;> simp [notifyStep, hv]

end Htmljs
